import Mathlib

/-!
Verification of the command dispatcher / machine-context engine of
`src/boilerplate/dispatcher.h` (app-bitcoin-new).

The header declares the data model (`command_descriptor_t`, `machine_context_s`,
`dispatcher_context_s`, `apdu_dispatcher`) and defines inline only the
diagnostic routine `print_dispatcher_info`.  The dispatcher engine itself
(the body of `apdu_dispatcher` and of the context operations `pause`, `next`,
`send_response`, `send_sw`, `start_flow`) is not part of the header, so the
engine below is modelled from the specification; the diagnostic routine is
embedded directly from the source over an explicit heap of machine-context
records, so that null pointers and cyclic parent chains are expressible.
-/

namespace Dispatch

/-! ### Status words and limits.

The spec names a "no such command" status, a default failure status and a
distinct nesting-overflow failure status but fixes no numeric values; the
constants below choose representative values.  The maximal nesting depth is
"a fixed maximum known at compile time"; its concrete value is arbitrary. -/

def SW_OK : Nat := 0x9000

def SW_NO_SUCH_COMMAND : Nat := 0x6D00

def SW_DEFAULT_FAILURE : Nat := 0x6F00

def SW_FLOW_OVERFLOW : Nat := 0x6A80

def MAX_NESTING : Nat := 4

/-- Embedded from `command_descriptor_t`: a command handler reference together
with the (class, instruction) pair it serves.  Handlers are identified by a
numeric id; their behaviour is supplied by an environment. -/
structure command_descriptor_t where
  handler : Nat
  cla : Nat
  ins : Nat
deriving DecidableEq, Repr

/-- Embedded from `command_t` (as documented at `apdu_dispatcher`): the parsed
request envelope CLA, INS, P1, P2, Lc. -/
structure command_t where
  cla : Nat
  ins : Nat
  p1 : Nat
  p2 : Nat
  lc : Nat
deriving DecidableEq, Repr

/-- Modelled from the spec: the Command Registry lookup of `apdu_dispatcher`
(whose body is not in the header) — "find the first descriptor whose
(class, instruction) equals the pair"; a linear scan over the ordered table. -/
def findCommand : List command_descriptor_t → Nat → Nat → Option command_descriptor_t
  | [], _, _ => none
  | d :: ds, cla, ins =>
    if d.cla = cla ∧ d.ins = ins then some d else findCommand ds cla ins

/-! ### The machine-context stack and per-exchange state (modelled from the spec).

A `machine_context_s` record carries a parent pointer and a "next processor".
The engine model represents the chain of active contexts as a nonempty list
whose head is the current (deepest) level and whose last element is the root;
the parent of a level is the next list element, so the parent chain is the
list order itself and the nesting depth is the list length. -/

/-- Modelled from the spec: one nesting level of the machine-context stack,
holding the continuation (`next_processor`) to invoke on the next resume of
this level; the parent link is the list position. -/
structure MachineLevel where
  next_processor : Option Nat
deriving DecidableEq, Repr

/-- Observable events of one exchange, in order of occurrence. -/
inductive Event where
  | lookupPerformed
  | handlerInvoked (handler p1 p2 lc : Nat)
  | procInvoked (p : Nat)
  | responseSent (data : List Nat) (sw : Nat)
  | termCb
deriving DecidableEq, Repr

/-- Modelled from the spec: the actions a handler or processor may perform
through the dispatcher context (`next`, `pause`, `send_sw`, `send_response`,
`start_flow`, and sequential reads of the request payload).  `run` is treated
as driver-internal, following the spec.  The first processor of `start_flow`
is given inline as its action script. -/
inductive Act where
  | skip
  | seq (a b : Act)
  | next (p : Nat)
  | pause
  | send_sw (sw : Nat)
  | send_response (data : List Nat) (sw : Nat)
  | start_flow (first : Act) (ret : Nat)
  | read (n : Nat)
deriving DecidableEq, Repr

/-- Modelled from the spec: the per-exchange dispatcher-context state —
the machine-context stack, the terminal response (at most one), a counter of
rejected second-response attempts, the pause flag, counters of successful and
rejected payload reads, a nesting-overflow flag, and the event trace. -/
structure ExchSt where
  stack : List MachineLevel
  response : Option (List Nat × Nat)
  rejected : Nat
  paused : Bool
  readsOk : Nat
  readsRejected : Nat
  flowError : Bool
  events : List Event
deriving DecidableEq, Repr

/-- Replace the continuation of the current (head) level. -/
def setCurrentNext : List MachineLevel → Option Nat → List MachineLevel
  | [], _ => []
  | _ :: ls, p => ⟨p⟩ :: ls

/-- Modelled from the spec: `send_response` / `send_sw` — "writes the terminal
response for the current exchange exactly once"; a second attempt is rejected
deterministically and does not alter the already-sent response. -/
def sendResp (data : List Nat) (sw : Nat) (s : ExchSt) : ExchSt :=
  match s.response with
  | some _ => { s with rejected := s.rejected + 1 }
  | none => { s with response := some (data, sw),
                     events := s.events ++ [Event.responseSent data sw] }

/-- Modelled from the spec: the semantics of the dispatcher-context operations,
interpreting a handler/processor script against the per-exchange state.
`next` records the continuation of the current level; `pause` marks the
exchange as suspended; payload reads are rejected once a response write has
started; `start_flow` checks the nesting bound, records the return
continuation at the current level, pushes the sub-level (whose parent is the
previous current level) and runs the first processor immediately. -/
def interp : Act → ExchSt → ExchSt
  | Act.skip, s => s
  | Act.seq a b, s => interp b (interp a s)
  | Act.next p, s => { s with stack := setCurrentNext s.stack (some p) }
  | Act.pause, s => { s with paused := true }
  | Act.send_sw sw, s => sendResp [] sw s
  | Act.send_response d sw, s => sendResp d sw s
  | Act.read _, s =>
      if s.response.isSome then { s with readsRejected := s.readsRejected + 1 }
      else { s with readsOk := s.readsOk + 1 }
  | Act.start_flow first ret, s =>
      if MAX_NESTING ≤ s.stack.length then
        sendResp [] SW_FLOW_OVERFLOW { s with flowError := true }
      else
        interp first { s with stack := ⟨none⟩ :: setCurrentNext s.stack (some ret) }

/-- Flow-Active: the current machine context has a pending continuation. -/
def flowActive (stack : List MachineLevel) : Bool :=
  match stack with
  | [] => false
  | l :: _ => l.next_processor.isSome

/-- Idle: no pending continuation at any nesting level. -/
def isIdle (stack : List MachineLevel) : Bool :=
  stack.all (fun l => l.next_processor.isNone)

/-- Modelled from the spec: end-of-exchange stack resolution.  A paused
exchange keeps the stack (the registered continuation stays pending); a
completed exchange pops the current level if it is a sub-flow, or clears the
root continuation, returning the dispatcher to Idle at that level. -/
def resolveStack (stack : List MachineLevel) (paused : Bool) : List MachineLevel :=
  if paused then stack
  else match stack with
    | [] => []
    | [_] => [⟨none⟩]
    | _ :: ls => ls

/-- Modelled from the spec: if the handler/processor sent no terminal response,
the dispatcher sends the default failure status word, so that the transport
receives exactly one terminal response per exchange. -/
def finalizeResponse (s : ExchSt) : ExchSt :=
  match s.response with
  | some _ => s
  | none => { s with response := some ([], SW_DEFAULT_FAILURE),
                     events := s.events ++ [Event.responseSent [] SW_DEFAULT_FAILURE] }

/-- Modelled from the spec: end-of-exchange processing — finalize the
response, resolve the stack (unless the exchange invoked nothing, as on a
lookup miss, which mutates no flow state), and, once processing is fully
finished, invoke the termination callback exactly when the dispatcher has
returned to Idle with a callback registered. -/
def finishExchange (cb : Bool) (doResolve : Bool) (s : ExchSt) : ExchSt :=
  let s2 := finalizeResponse s
  let s3 := { s2 with stack := if doResolve then resolveStack s2.stack s2.paused else s2.stack }
  if cb && isIdle s3.stack then { s3 with events := s3.events ++ [Event.termCb] } else s3

/-- Environment giving each handler id its behaviour on (p1, p2, lc). -/
def HandlerEnv : Type := Nat → Nat → Nat → Nat → Act

/-- Environment giving each processor id its behaviour. -/
def ProcEnv : Type := Nat → Act

/-- Fresh per-exchange state over a given stack and initial trace. -/
def initExchSt (stack : List MachineLevel) (events : List Event) : ExchSt :=
  ⟨stack, none, 0, false, 0, 0, false, events⟩

/-- Modelled from the spec: one invocation of `apdu_dispatcher` (whose body is
not in the header).  While Flow-Active it resumes the current continuation
without consulting the registry; while Idle it performs the registry lookup
and runs the matched handler with (P1, P2, Lc), or answers "no such command"
without invoking any handler and without mutating flow state. -/
def exchange (descs : List command_descriptor_t) (handlers : HandlerEnv)
    (procs : ProcEnv) (cb : Bool) (cmd : command_t)
    (stack : List MachineLevel) : ExchSt :=
  match stack with
  | l :: _ =>
    match l.next_processor with
    | some p =>
        finishExchange cb true
          (interp (procs p) (initExchSt (setCurrentNext stack none) [Event.procInvoked p]))
    | none =>
        match findCommand descs cmd.cla cmd.ins with
        | some d =>
            finishExchange cb true
              (interp (handlers d.handler cmd.p1 cmd.p2 cmd.lc)
                (initExchSt stack
                  [Event.lookupPerformed,
                   Event.handlerInvoked d.handler cmd.p1 cmd.p2 cmd.lc]))
        | none =>
            finishExchange cb false
              { initExchSt stack
                  [Event.lookupPerformed, Event.responseSent [] SW_NO_SUCH_COMMAND] with
                response := some ([], SW_NO_SUCH_COMMAND) }
  | [] => finishExchange cb false (initExchSt [] [])

/-- The root machine context at startup: no pending continuation. -/
def initStack : List MachineLevel := [⟨none⟩]

/-- Run a sequence of exchanges, threading the machine-context stack. -/
def runExchanges (descs : List command_descriptor_t) (handlers : HandlerEnv)
    (procs : ProcEnv) (cb : Bool) : List command_t → List MachineLevel → List MachineLevel
  | [], stack => stack
  | c :: cs, stack => runExchanges descs handlers procs cb cs (exchange descs handlers procs cb c stack).stack

/-! ### Concrete environments used by witnesses. -/

/-- A handler environment whose every handler does some work, registers
processor 5 and pauses. -/
def wHandlersNP : HandlerEnv := fun _ _ _ _ => Act.seq Act.skip (Act.seq (Act.next 5) Act.pause)

/-- A processor environment whose every processor does some work, registers
processor 5 and pauses. -/
def wProcsNP : ProcEnv := fun _ => Act.seq Act.skip (Act.seq (Act.next 5) Act.pause)

/-- A processor environment whose every processor completes immediately with
a success status word. -/
def wProcsOK : ProcEnv := fun _ => Act.send_sw SW_OK

/-- A handler environment whose every handler does nothing. -/
def wHandlersSkip : HandlerEnv := fun _ _ _ _ => Act.skip

/-! ### The diagnostic routine, embedded from the source.

`print_dispatcher_info` is defined inline in the header:

    machine_context_t *ctx = dc->machine_context_ptr;
    while (ctx->parent_context != NULL) { PRINTF("----"); ctx = ctx->parent_context; }
    PRINTF("->%s %d: %s\n", file, line, func);

To make null dereferences and cyclic parent chains expressible, machine
contexts live in an explicit heap addressed by naturals; a null pointer is
`Option.none`.  The loop is given fuel; `none` models a crash (dereference of
a pointer not backed by a record) or failure to terminate within the fuel. -/

/-- Embedded from `machine_context_s`: parent pointer and next processor,
with pointers as optional heap addresses. -/
structure machine_context_t where
  parent_context : Option Nat
  next_processor : Option Nat
deriving DecidableEq, Repr

/-- The heap of machine-context records: which address holds which record. -/
def Heap : Type := Nat → Option machine_context_t

/-- Embedded from `dispatcher_context_s` (the field the diagnostic routine
uses): the pointer to the current machine context. -/
structure dispatcher_context_t where
  machine_context_ptr : Option Nat
deriving DecidableEq, Repr

/-- Embedded from the source: the `while (ctx->parent_context != NULL)` loop.
Returns the list of `PRINTF("----")` outputs, one per parent link walked;
`none` when the walk dereferences an unbacked address or the fuel runs out. -/
def printLoop (h : Heap) : Nat → Nat → Option (List String)
  | _, 0 => none
  | a, fuel + 1 =>
    match h a with
    | none => none
    | some ctx =>
      match ctx.parent_context with
      | none => some []
      | some p => (printLoop h p fuel).map (fun l => "----" :: l)

/-- The final `PRINTF("->%s %d: %s\n", file, line, func)` line. -/
def renderLocation (file : String) (line : Nat) (func : String) : String :=
  "->" ++ file ++ " " ++ toString line ++ ": " ++ func ++ "\n"

/-- Embedded from the source: `print_dispatcher_info`.  The routine only reads
state, so the embedding passes the heap and the dispatcher context through to
the result next to the rendered output; `none` models a crash (the very first
loop test dereferences `dc->machine_context_ptr`, so a null pointer there is
an unchecked null dereference) or a walk that does not terminate. -/
def print_dispatcher_info (h : Heap) (dc : dispatcher_context_t)
    (file : String) (line : Nat) (func : String) (fuel : Nat) :
    Option (Heap × dispatcher_context_t × List String) :=
  match dc.machine_context_ptr with
  | none => none
  | some a => (printLoop h a fuel).map
      (fun pieces => (h, dc, pieces ++ [renderLocation file line func]))

/-- The parent chain from address `a` is a genuine chain: acyclic,
null-terminated, reaching the root (parent = null) in exactly `n` links, all
through backed records. -/
inductive ReachesRoot (h : Heap) : Nat → Nat → Prop where
  | root (a : Nat) (ctx : machine_context_t) (ha : h a = some ctx)
      (hp : ctx.parent_context = none) : ReachesRoot h a 0
  | step (a p n : Nat) (ctx : machine_context_t) (ha : h a = some ctx)
      (hp : ctx.parent_context = some p) (ih : ReachesRoot h p n) :
      ReachesRoot h a (n + 1)

/-- Event classifiers and the response-event count used by the theorems. -/
def isRespEv : Event → Bool
  | Event.responseSent _ _ => true
  | _ => false

def isHandlerEv : Event → Bool
  | Event.handlerInvoked _ _ _ _ => true
  | _ => false

def isProcEv : Event → Bool
  | Event.procInvoked _ => true
  | _ => false

/-- Count of terminal-response events in a trace. -/
def respEvCount (l : List Event) : Nat := (l.filter isRespEv).length

def respFlag : Option (List Nat × Nat) → Nat
  | some _ => 1
  | none => 0

/-- A two-node heap for the witnesses: address 1's parent is address 0, and
address 0 is the root. -/
def wHeap : Heap := fun a =>
  if a = 0 then some ⟨none, none⟩
  else if a = 1 then some ⟨some 0, none⟩
  else none

/-! ### Sanity checks on the engine (concrete evaluations). -/

example :
    (exchange [⟨7, 0xE1, 3⟩] (fun _ _ _ _ => Act.send_sw SW_OK) (fun _ => Act.skip)
      false ⟨0xE1, 3, 1, 2, 5⟩ initStack).response = some ([], SW_OK) := by decide

example :
    (exchange [⟨7, 0xE1, 3⟩] (fun _ _ _ _ => Act.send_sw SW_OK) (fun _ => Act.skip)
      true ⟨0xE1, 4, 1, 2, 5⟩ initStack).events =
      [Event.lookupPerformed, Event.responseSent [] SW_NO_SUCH_COMMAND, Event.termCb] := by decide

example :
    (exchange [⟨7, 0xE1, 3⟩]
      (fun _ _ _ _ => Act.seq (Act.seq (Act.send_sw SW_OK) (Act.next 9)) Act.pause)
      (fun _ => Act.skip) true ⟨0xE1, 3, 1, 2, 5⟩ initStack).stack = [⟨some 9⟩] := by decide

/-! ### Basic lemmas about the engine. -/

theorem sendResp_response_some (d : List Nat) (sw : Nat) (s : ExchSt)
    (r : List Nat × Nat) (h : s.response = some r) :
    (sendResp d sw s).response = some r := by
  simp [sendResp, h]

theorem sendResp_rejected_of_some (d : List Nat) (sw : Nat) (s : ExchSt)
    (r : List Nat × Nat) (h : s.response = some r) :
    (sendResp d sw s).rejected = s.rejected + 1 := by
  simp [sendResp, h]

theorem sendResp_stack (d : List Nat) (sw : Nat) (s : ExchSt) :
    (sendResp d sw s).stack = s.stack := by
  cases hr : s.response <;> simp [sendResp, hr]

theorem sendResp_paused (d : List Nat) (sw : Nat) (s : ExchSt) :
    (sendResp d sw s).paused = s.paused := by
  cases hr : s.response <;> simp [sendResp, hr]

theorem sendResp_readsOk (d : List Nat) (sw : Nat) (s : ExchSt) :
    (sendResp d sw s).readsOk = s.readsOk := by
  cases hr : s.response <;> simp [sendResp, hr]

theorem sendResp_flowError (d : List Nat) (sw : Nat) (s : ExchSt) :
    (sendResp d sw s).flowError = s.flowError := by
  cases hr : s.response <;> simp [sendResp, hr]

theorem sendResp_isSome (d : List Nat) (sw : Nat) (s : ExchSt)
    (h : s.response.isSome = true) : (sendResp d sw s).response.isSome = true := by
  cases hr : s.response with
  | none => rw [hr] at h; simp at h
  | some r => rw [sendResp_response_some d sw s r hr]; rfl

theorem interp_response_some (a : Act) (s : ExchSt) (r : List Nat × Nat)
    (h : s.response = some r) : (interp a s).response = some r := by
  induction a generalizing s with
  | skip => simpa [interp] using h
  | seq a b iha ihb => rw [interp]; exact ihb _ (iha _ h)
  | next p => simpa [interp] using h
  | pause => simpa [interp] using h
  | send_sw sw => rw [interp]; exact sendResp_response_some _ _ _ _ h
  | send_response d sw => rw [interp]; exact sendResp_response_some _ _ _ _ h
  | read n => simp [interp, h]
  | start_flow first ret ih =>
    rw [interp]
    by_cases hle : MAX_NESTING ≤ s.stack.length
    · rw [if_pos hle]
      exact sendResp_response_some _ _ _ _ (by simpa using h)
    · rw [if_neg hle]
      exact ih _ (by simpa using h)

theorem interp_response_isSome (a : Act) (s : ExchSt)
    (h : s.response.isSome = true) : (interp a s).response.isSome = true := by
  cases hr : s.response with
  | none => rw [hr] at h; simp at h
  | some r => rw [interp_response_some a s r hr]; rfl

theorem interp_readsOk (a : Act) (s : ExchSt) (h : s.response.isSome = true) :
    (interp a s).readsOk = s.readsOk := by
  induction a generalizing s with
  | skip => simp [interp]
  | seq a b iha ihb =>
    rw [interp, ihb _ (interp_response_isSome a s h), iha _ h]
  | next p => simp [interp]
  | pause => simp [interp]
  | send_sw sw => rw [interp]; exact sendResp_readsOk _ _ _
  | send_response d sw => rw [interp]; exact sendResp_readsOk _ _ _
  | read n => simp [interp, h]
  | start_flow first ret ih =>
    rw [interp]
    by_cases hle : MAX_NESTING ≤ s.stack.length
    · rw [if_pos hle, sendResp_readsOk]
    · rw [if_neg hle]; exact ih _ (by simpa using h)

theorem interp_read_rejected (n : Nat) (s : ExchSt) (h : s.response.isSome = true) :
    interp (Act.read n) s = { s with readsRejected := s.readsRejected + 1 } := by
  simp [interp, h]

theorem setCurrentNext_length (l : List MachineLevel) (p : Option Nat) :
    (setCurrentNext l p).length = l.length := by
  cases l <;> simp [setCurrentNext]

theorem setCurrentNext_ne_nil (l : List MachineLevel) (p : Option Nat)
    (h : l ≠ []) : setCurrentNext l p ≠ [] := by
  cases l with
  | nil => exact absurd rfl h
  | cons x xs => simp [setCurrentNext]

theorem interp_stack_length (a : Act) (s : ExchSt)
    (h : s.stack.length ≤ MAX_NESTING) :
    (interp a s).stack.length ≤ MAX_NESTING := by
  induction a generalizing s with
  | skip => simpa [interp] using h
  | seq a b iha ihb => rw [interp]; exact ihb _ (iha _ h)
  | next p => rw [interp]; simpa [setCurrentNext_length] using h
  | pause => simpa [interp] using h
  | send_sw sw => rw [interp, sendResp_stack]; exact h
  | send_response d sw => rw [interp, sendResp_stack]; exact h
  | read n =>
    rw [interp]
    by_cases hr : s.response.isSome <;> simp [hr] <;> exact h
  | start_flow first ret ih =>
    rw [interp]
    by_cases hle : MAX_NESTING ≤ s.stack.length
    · rw [if_pos hle, sendResp_stack]; exact h
    · rw [if_neg hle]
      apply ih
      simp only [List.length_cons, setCurrentNext_length]
      omega

theorem interp_stack_ne_nil (a : Act) (s : ExchSt) (h : s.stack ≠ []) :
    (interp a s).stack ≠ [] := by
  induction a generalizing s with
  | skip => simpa [interp] using h
  | seq a b iha ihb => rw [interp]; exact ihb _ (iha _ h)
  | next p => rw [interp]; exact setCurrentNext_ne_nil _ _ h
  | pause => simpa [interp] using h
  | send_sw sw => rw [interp, sendResp_stack]; exact h
  | send_response d sw => rw [interp, sendResp_stack]; exact h
  | read n =>
    rw [interp]
    by_cases hr : s.response.isSome <;> simp [hr] <;> exact h
  | start_flow first ret ih =>
    rw [interp]
    by_cases hle : MAX_NESTING ≤ s.stack.length
    · rw [if_pos hle, sendResp_stack]; exact h
    · rw [if_neg hle]
      apply ih
      simp

/-! ### Event-trace lemmas. -/

theorem respFlag_le_one (o : Option (List Nat × Nat)) : respFlag o ≤ 1 := by
  cases o <;> simp [respFlag]

theorem respFlag_isSome (o : Option (List Nat × Nat)) :
    respFlag o = if o.isSome then 1 else 0 := by
  cases o <;> rfl

theorem sendResp_events_append (d : List Nat) (sw : Nat) (s : ExchSt) :
    ∃ es, (sendResp d sw s).events = s.events ++ es ∧ ∀ e ∈ es, isRespEv e = true := by
  cases hr : s.response with
  | some r => exact ⟨[], by simp [sendResp, hr]⟩
  | none =>
    refine ⟨[Event.responseSent d sw], by simp [sendResp, hr], ?_⟩
    intro e he
    simp at he
    simp [he, isRespEv]

theorem interp_events_append (a : Act) (s : ExchSt) :
    ∃ es, (interp a s).events = s.events ++ es ∧ ∀ e ∈ es, isRespEv e = true := by
  induction a generalizing s with
  | skip => exact ⟨[], by simp [interp]⟩
  | seq a b iha ihb =>
    obtain ⟨es₁, h₁, hr₁⟩ := iha s
    obtain ⟨es₂, h₂, hr₂⟩ := ihb (interp a s)
    refine ⟨es₁ ++ es₂, ?_, ?_⟩
    · rw [interp, h₂, h₁, List.append_assoc]
    · intro e he
      rcases List.mem_append.mp he with h | h
      · exact hr₁ e h
      · exact hr₂ e h
  | next p => exact ⟨[], by simp [interp]⟩
  | pause => exact ⟨[], by simp [interp]⟩
  | send_sw sw => rw [interp]; exact sendResp_events_append _ _ _
  | send_response d sw => rw [interp]; exact sendResp_events_append _ _ _
  | read n =>
    by_cases hr : s.response.isSome
    · exact ⟨[], by simp [interp, hr]⟩
    · exact ⟨[], by simp [interp, hr]⟩
  | start_flow first ret ih =>
    rw [interp]
    by_cases hle : MAX_NESTING ≤ s.stack.length
    · rw [if_pos hle]
      obtain ⟨es, he, hr⟩ := sendResp_events_append [] SW_FLOW_OVERFLOW { s with flowError := true }
      exact ⟨es, by simpa using he, hr⟩
    · rw [if_neg hle]
      obtain ⟨es, he, hr⟩ := ih { s with stack := ⟨none⟩ :: setCurrentNext s.stack (some ret) }
      exact ⟨es, by simpa using he, hr⟩

theorem sendResp_count (d : List Nat) (sw : Nat) (s : ExchSt) :
    respEvCount (sendResp d sw s).events + respFlag s.response
      = respEvCount s.events + respFlag (sendResp d sw s).response := by
  cases hr : s.response with
  | some r => simp [sendResp, hr]
  | none =>
    simp [sendResp, hr, respEvCount, respFlag, List.filter_append, isRespEv]

theorem interp_count (a : Act) (s : ExchSt) :
    respEvCount (interp a s).events + respFlag s.response
      = respEvCount s.events + respFlag (interp a s).response := by
  induction a generalizing s with
  | skip => simp [interp]
  | seq a b iha ihb =>
    have h₁ := iha s
    have h₂ := ihb (interp a s)
    rw [interp]
    omega
  | next p => simp [interp]
  | pause => simp [interp]
  | send_sw sw => rw [interp]; exact sendResp_count _ _ _
  | send_response d sw => rw [interp]; exact sendResp_count _ _ _
  | read n => by_cases hr : s.response.isSome <;> simp [interp, hr]
  | start_flow first ret ih =>
    rw [interp]
    by_cases hle : MAX_NESTING ≤ s.stack.length
    · rw [if_pos hle]
      have := sendResp_count [] SW_FLOW_OVERFLOW { s with flowError := true }
      simpa using this
    · rw [if_neg hle]
      have := ih { s with stack := ⟨none⟩ :: setCurrentNext s.stack (some ret) }
      simpa using this

theorem respEv_mem_of_count (l : List Event) (h : 1 ≤ respEvCount l) :
    ∃ d sw, Event.responseSent d sw ∈ l := by
  unfold respEvCount at h
  cases hf : l.filter isRespEv with
  | nil => rw [hf] at h; simp at h
  | cons e es =>
    have he : e ∈ l.filter isRespEv := by rw [hf]; exact List.mem_cons_self e es
    have hm := List.mem_filter.mp he
    cases e with
    | responseSent d sw => exact ⟨d, sw, hm.1⟩
    | lookupPerformed => simp [isRespEv] at hm
    | handlerInvoked a b c d => simp [isRespEv] at hm
    | procInvoked p => simp [isRespEv] at hm
    | termCb => simp [isRespEv] at hm

theorem filter_append_nil (p : Event → Bool) (l es : List Event)
    (h : ∀ e ∈ es, p e = false) : (l ++ es).filter p = l.filter p := by
  have h2 : es.filter p = [] :=
    List.filter_eq_nil_iff.mpr (by intro e he; simp [h e he])
  rw [List.filter_append, h2, List.append_nil]

/-! ### Lemmas about end-of-exchange processing. -/

theorem finalizeResponse_stack (s : ExchSt) : (finalizeResponse s).stack = s.stack := by
  cases hr : s.response <;> simp [finalizeResponse, hr]

theorem finalizeResponse_paused (s : ExchSt) : (finalizeResponse s).paused = s.paused := by
  cases hr : s.response <;> simp [finalizeResponse, hr]

theorem finalizeResponse_isSome (s : ExchSt) :
    (finalizeResponse s).response.isSome = true := by
  cases hr : s.response <;> simp [finalizeResponse, hr]

theorem finalizeResponse_of_some (s : ExchSt) (r : List Nat × Nat)
    (h : s.response = some r) : finalizeResponse s = s := by
  simp [finalizeResponse, h]

theorem finalizeResponse_of_none (s : ExchSt) (h : s.response = none) :
    (finalizeResponse s).response = some ([], SW_DEFAULT_FAILURE) := by
  simp [finalizeResponse, h]

theorem finalizeResponse_events_append (s : ExchSt) :
    ∃ es, (finalizeResponse s).events = s.events ++ es ∧ ∀ e ∈ es, isRespEv e = true := by
  cases hr : s.response with
  | some r => exact ⟨[], by simp [finalizeResponse, hr]⟩
  | none =>
    refine ⟨[Event.responseSent [] SW_DEFAULT_FAILURE], by simp [finalizeResponse, hr], ?_⟩
    intro e he
    simp at he
    simp [he, isRespEv]

theorem finalizeResponse_count (s : ExchSt) :
    respEvCount (finalizeResponse s).events
      = respEvCount s.events + (1 - respFlag s.response) := by
  cases hr : s.response with
  | some r => simp [finalizeResponse, hr, respFlag]
  | none =>
    simp [finalizeResponse, hr, respFlag, respEvCount, List.filter_append, isRespEv]

theorem resolveStack_ne_nil (st : List MachineLevel) (p : Bool) (h : st ≠ []) :
    resolveStack st p ≠ [] := by
  by_cases hp : p
  · simpa [resolveStack, hp] using h
  · cases st with
    | nil => exact absurd rfl h
    | cons x xs =>
      cases xs with
      | nil => simp [resolveStack, hp]
      | cons y ys => simp [resolveStack, hp]

theorem resolveStack_length_le (st : List MachineLevel) (p : Bool) :
    (resolveStack st p).length ≤ max st.length 1 := by
  by_cases hp : p
  · simp [resolveStack, hp]
  · cases st with
    | nil => simp [resolveStack, hp]
    | cons x xs =>
      cases xs with
      | nil => simp [resolveStack, hp]
      | cons y ys => simp [resolveStack, hp]

theorem finishExchange_stack (cb dores : Bool) (s : ExchSt) :
    (finishExchange cb dores s).stack
      = if dores then resolveStack s.stack s.paused else s.stack := by
  unfold finishExchange
  dsimp only
  split <;> split <;> simp [finalizeResponse_stack, finalizeResponse_paused]

theorem finishExchange_response (cb dores : Bool) (s : ExchSt) :
    (finishExchange cb dores s).response = (finalizeResponse s).response := by
  unfold finishExchange
  dsimp only
  split <;> split <;> simp

theorem finishExchange_events_cases (cb dores : Bool) (s : ExchSt) :
    (finishExchange cb dores s).events = (finalizeResponse s).events
      ∨ (finishExchange cb dores s).events
          = (finalizeResponse s).events ++ [Event.termCb] := by
  unfold finishExchange
  dsimp only
  split <;> split <;> simp

theorem finishExchange_isSome (cb dores : Bool) (s : ExchSt) :
    (finishExchange cb dores s).response.isSome = true := by
  rw [finishExchange_response]
  exact finalizeResponse_isSome s

theorem finishExchange_events_append (cb dores : Bool) (s : ExchSt) :
    ∃ es, (finishExchange cb dores s).events = s.events ++ es
      ∧ ∀ e ∈ es, isRespEv e = true ∨ e = Event.termCb := by
  obtain ⟨es₁, h₁, hr₁⟩ := finalizeResponse_events_append s
  rcases finishExchange_events_cases cb dores s with h | h
  · exact ⟨es₁, by rw [h, h₁], fun e he => Or.inl (hr₁ e he)⟩
  · refine ⟨es₁ ++ [Event.termCb], by rw [h, h₁, List.append_assoc], ?_⟩
    intro e he
    rcases List.mem_append.mp he with hm | hm
    · exact Or.inl (hr₁ e hm)
    · simp at hm; exact Or.inr hm

theorem finishExchange_count (cb dores : Bool) (s : ExchSt) :
    respEvCount (finishExchange cb dores s).events
      = respEvCount s.events + (1 - respFlag s.response) := by
  have htc : respEvCount ((finalizeResponse s).events ++ [Event.termCb])
      = respEvCount (finalizeResponse s).events :=
    congrArg List.length (filter_append_nil isRespEv _ _
      (by intro e he; simp at he; simp [he, isRespEv]))
  rcases finishExchange_events_cases cb dores s with h | h
  · rw [h]; exact finalizeResponse_count s
  · rw [h, htc]; exact finalizeResponse_count s

/-! ### Lemmas about the registry lookup. -/

theorem findCommand_first (descs : List command_descriptor_t) (cla ins : Nat)
    (i : Nat) (hi : i < descs.length)
    (hmatch : descs[i].cla = cla ∧ descs[i].ins = ins)
    (hfirst : ∀ j (hj : j < i),
      ¬(descs[j]).cla = cla
        ∨ ¬(descs[j]).ins = ins) :
    findCommand descs cla ins = some descs[i] := by
  induction descs generalizing i with
  | nil => simp at hi
  | cons d ds ih =>
    cases i with
    | zero =>
      simp only [List.getElem_cons_zero] at hmatch
      simp [findCommand, hmatch]
    | succ n =>
      have hd : ¬(d.cla = cla ∧ d.ins = ins) := by
        have h0 := hfirst 0 (Nat.succ_pos n)
        simp only [List.getElem_cons_zero] at h0
        tauto
      rw [findCommand, if_neg hd]
      simp only [List.getElem_cons_succ] at hmatch ⊢
      refine ih n (by simpa using hi) hmatch ?_
      intro j hj
      have := hfirst (j + 1) (by omega)
      simpa using this

theorem findCommand_none (descs : List command_descriptor_t) (cla ins : Nat)
    (h : ∀ d ∈ descs, ¬(d.cla = cla ∧ d.ins = ins)) :
    findCommand descs cla ins = none := by
  induction descs with
  | nil => rfl
  | cons d ds ih =>
    rw [findCommand, if_neg (h d (List.mem_cons_self d ds))]
    exact ih (fun d' hd' => h d' (List.mem_cons_of_mem d hd'))

/-! ### Branch lemmas for `exchange`. -/

theorem exchange_proc (descs : List command_descriptor_t) (handlers : HandlerEnv)
    (procs : ProcEnv) (cb : Bool) (cmd : command_t) (l : MachineLevel)
    (ls : List MachineLevel) (p : Nat) (hp : l.next_processor = some p) :
    exchange descs handlers procs cb cmd (l :: ls)
      = finishExchange cb true
          (interp (procs p) (initExchSt (⟨none⟩ :: ls) [Event.procInvoked p])) := by
  simp [exchange, hp, setCurrentNext]

theorem exchange_handler (descs : List command_descriptor_t) (handlers : HandlerEnv)
    (procs : ProcEnv) (cb : Bool) (cmd : command_t) (l : MachineLevel)
    (ls : List MachineLevel) (d : command_descriptor_t)
    (hp : l.next_processor = none)
    (hf : findCommand descs cmd.cla cmd.ins = some d) :
    exchange descs handlers procs cb cmd (l :: ls)
      = finishExchange cb true
          (interp (handlers d.handler cmd.p1 cmd.p2 cmd.lc)
            (initExchSt (l :: ls)
              [Event.lookupPerformed,
               Event.handlerInvoked d.handler cmd.p1 cmd.p2 cmd.lc])) := by
  simp [exchange, hp, hf]

theorem exchange_miss (descs : List command_descriptor_t) (handlers : HandlerEnv)
    (procs : ProcEnv) (cb : Bool) (cmd : command_t) (l : MachineLevel)
    (ls : List MachineLevel) (hp : l.next_processor = none)
    (hf : findCommand descs cmd.cla cmd.ins = none) :
    exchange descs handlers procs cb cmd (l :: ls)
      = finishExchange cb false
          { initExchSt (l :: ls)
              [Event.lookupPerformed, Event.responseSent [] SW_NO_SUCH_COMMAND] with
            response := some ([], SW_NO_SUCH_COMMAND) } := by
  simp [exchange, hp, hf]

/-- In every branch, the state handed to `finishExchange` has no termination
event yet and as many response events as sent responses. -/
theorem interp_pre_spec (a : Act) (st : List MachineLevel) (evs : List Event)
    (hn : Event.termCb ∉ evs) (hc : respEvCount evs = 0) :
    Event.termCb ∉ (interp a (initExchSt st evs)).events
      ∧ respEvCount (interp a (initExchSt st evs)).events
          = respFlag (interp a (initExchSt st evs)).response := by
  obtain ⟨es, he, hr⟩ := interp_events_append a (initExchSt st evs)
  constructor
  · rw [he]
    intro hmem
    rcases List.mem_append.mp hmem with h | h
    · exact hn h
    · have := hr _ h
      simp [isRespEv] at this
  · have hI := interp_count a (initExchSt st evs)
    have h0 : respFlag (initExchSt st evs).response = 0 := rfl
    have h1 : respEvCount (initExchSt st evs).events = 0 := hc
    omega

/-- Core property of end-of-exchange processing: the termination callback
fires exactly when the callback is registered and the dispatcher has returned
to Idle, and when it fires, it fires once and only after the terminal
response event. -/
theorem finishExchange_termCb_spec (cb dores : Bool) (s : ExchSt)
    (hnotin : Event.termCb ∉ s.events)
    (hcount : respEvCount s.events = respFlag s.response) :
    (Event.termCb ∈ (finishExchange cb dores s).events
        ↔ (cb = true ∧ isIdle (finishExchange cb dores s).stack = true))
    ∧ (Event.termCb ∈ (finishExchange cb dores s).events →
        ∃ pre d sw, (finishExchange cb dores s).events = pre ++ [Event.termCb]
          ∧ Event.termCb ∉ pre ∧ Event.responseSent d sw ∈ pre) := by
  have hn2 : Event.termCb ∉ (finalizeResponse s).events := by
    obtain ⟨es, he, hr⟩ := finalizeResponse_events_append s
    rw [he]
    intro hmem
    rcases List.mem_append.mp hmem with h | h
    · exact hnotin h
    · have := hr _ h
      simp [isRespEv] at this
  have hc2 : 1 ≤ respEvCount (finalizeResponse s).events := by
    have h1 := finalizeResponse_count s
    have h2 := respFlag_le_one s.response
    omega
  obtain ⟨d0, sw0, hmem0⟩ := respEv_mem_of_count _ hc2
  unfold finishExchange
  dsimp only
  generalize (if dores = true then
      resolveStack (finalizeResponse s).stack (finalizeResponse s).paused
    else (finalizeResponse s).stack) = T
  split
  case isTrue hcond =>
    rw [Bool.and_eq_true] at hcond
    constructor
    · constructor
      · intro _
        exact ⟨hcond.1, hcond.2⟩
      · intro _
        simp
    · intro _
      exact ⟨(finalizeResponse s).events, d0, sw0, rfl, hn2, hmem0⟩
  case isFalse hcond =>
    constructor
    · constructor
      · intro hmem
        exact absurd hmem hn2
      · intro hci
        rw [Bool.and_eq_true] at hcond
        exact absurd ⟨hci.1, hci.2⟩ hcond
    · intro hmem
      exact absurd hmem hn2

/-! ### The stack invariant across exchanges. -/

theorem exchange_stack_inv (descs : List command_descriptor_t)
    (handlers : HandlerEnv) (procs : ProcEnv) (cb : Bool) (cmd : command_t)
    (stack : List MachineLevel) (h1 : stack ≠ []) (h2 : stack.length ≤ MAX_NESTING) :
    (exchange descs handlers procs cb cmd stack).stack ≠ []
      ∧ (exchange descs handlers procs cb cmd stack).stack.length ≤ MAX_NESTING := by
  have hmax : 1 ≤ MAX_NESTING := by decide
  cases stack with
  | nil => exact absurd rfl h1
  | cons l ls =>
    cases hp : l.next_processor with
    | some p =>
      rw [exchange_proc descs handlers procs cb cmd l ls p hp]
      set s' := interp (procs p) (initExchSt (⟨none⟩ :: ls) [Event.procInvoked p]) with hs'
      have hne : s'.stack ≠ [] :=
        interp_stack_ne_nil _ _ (by simp [initExchSt])
      have hlen : s'.stack.length ≤ MAX_NESTING :=
        interp_stack_length _ _ (by simpa [initExchSt] using h2)
      rw [finishExchange_stack]
      simp only [if_true]
      refine ⟨resolveStack_ne_nil _ _ hne, ?_⟩
      have := resolveStack_length_le s'.stack s'.paused
      omega
    | none =>
      cases hf : findCommand descs cmd.cla cmd.ins with
      | some d =>
        rw [exchange_handler descs handlers procs cb cmd l ls d hp hf]
        set s' := interp (handlers d.handler cmd.p1 cmd.p2 cmd.lc)
          (initExchSt (l :: ls)
            [Event.lookupPerformed,
             Event.handlerInvoked d.handler cmd.p1 cmd.p2 cmd.lc]) with hs'
        have hne : s'.stack ≠ [] :=
          interp_stack_ne_nil _ _ (by simp [initExchSt])
        have hlen : s'.stack.length ≤ MAX_NESTING :=
          interp_stack_length _ _ (by simpa [initExchSt] using h2)
        rw [finishExchange_stack]
        simp only [if_true]
        refine ⟨resolveStack_ne_nil _ _ hne, ?_⟩
        have := resolveStack_length_le s'.stack s'.paused
        omega
      | none =>
        rw [exchange_miss descs handlers procs cb cmd l ls hp hf]
        rw [finishExchange_stack]
        simp only [Bool.false_eq_true, if_false]
        exact ⟨by simp [initExchSt], by simpa [initExchSt] using h2⟩

theorem runExchanges_inv (descs : List command_descriptor_t)
    (handlers : HandlerEnv) (procs : ProcEnv) (cb : Bool) (cmds : List command_t)
    (stack : List MachineLevel) (h1 : stack ≠ []) (h2 : stack.length ≤ MAX_NESTING) :
    runExchanges descs handlers procs cb cmds stack ≠ []
      ∧ (runExchanges descs handlers procs cb cmds stack).length ≤ MAX_NESTING := by
  induction cmds generalizing stack with
  | nil => exact ⟨h1, h2⟩
  | cons c cs ih =>
    obtain ⟨h1', h2'⟩ := exchange_stack_inv descs handlers procs cb c stack h1 h2
    exact ih _ h1' h2'

theorem respOrTerm_not_handler :
    ∀ e : Event, (isRespEv e = true ∨ e = Event.termCb) → isHandlerEv e = false
  | Event.lookupPerformed, _ => rfl
  | Event.handlerInvoked _ _ _ _, h => by rcases h with h | h <;> simp [isRespEv] at h
  | Event.procInvoked _, _ => rfl
  | Event.responseSent _ _, _ => rfl
  | Event.termCb, _ => rfl

theorem respOrTerm_not_proc :
    ∀ e : Event, (isRespEv e = true ∨ e = Event.termCb) → isProcEv e = false
  | Event.lookupPerformed, _ => rfl
  | Event.handlerInvoked _ _ _ _, _ => rfl
  | Event.procInvoked _, h => by rcases h with h | h <;> simp [isRespEv] at h
  | Event.responseSent _ _, _ => rfl
  | Event.termCb, _ => rfl

theorem respOrTerm_not_lookup :
    ∀ e : Event, (isRespEv e = true ∨ e = Event.termCb) → e ≠ Event.lookupPerformed
  | Event.lookupPerformed, h => by rcases h with h | h <;> simp [isRespEv] at h
  | Event.handlerInvoked _ _ _ _, _ => by intro hc; cases hc
  | Event.procInvoked _, _ => by intro hc; cases hc
  | Event.responseSent _ _, _ => by intro hc; cases hc
  | Event.termCb, _ => by intro hc; cases hc

/-! ### Claims C4, C5, C7, C8 about the exchange engine. -/

/-- C4: For every exchange, exactly one terminal response (via `send_response`
or `send_sw`) reaches the transport: if the handler/processor sends none, the
dispatcher sends a default failure status word, and any attempt to send a
second terminal response in the same exchange is deterministically rejected
and does not alter the already-sent response. -/
theorem C4_single_response :
    (∀ descs handlers procs cb cmd stack,
        respEvCount (exchange descs handlers procs cb cmd stack).events = 1
          ∧ (exchange descs handlers procs cb cmd stack).response.isSome = true)
    ∧ (∀ cb dores s, s.response = none →
        (finishExchange cb dores s).response = some ([], SW_DEFAULT_FAILURE))
    ∧ (∀ d sw s r, s.response = some r →
        (sendResp d sw s).response = some r
          ∧ (sendResp d sw s).rejected = s.rejected + 1) := by
  refine ⟨?_, ?_, ?_⟩
  · intro descs handlers procs cb cmd stack
    cases stack with
    | nil =>
      have hb : exchange descs handlers procs cb cmd []
          = finishExchange cb false (initExchSt [] []) := rfl
      rw [hb, finishExchange_count]
      exact ⟨rfl, finishExchange_isSome cb false _⟩
    | cons l ls =>
      cases hp : l.next_processor with
      | some p =>
        rw [exchange_proc descs handlers procs cb cmd l ls p hp, finishExchange_count]
        have hs := interp_pre_spec (procs p) (⟨none⟩ :: ls) [Event.procInvoked p]
          (by simp) rfl
        have hle := respFlag_le_one
          (interp (procs p) (initExchSt (⟨none⟩ :: ls) [Event.procInvoked p])).response
        exact ⟨by omega, finishExchange_isSome cb true _⟩
      | none =>
        cases hf : findCommand descs cmd.cla cmd.ins with
        | some d =>
          rw [exchange_handler descs handlers procs cb cmd l ls d hp hf,
            finishExchange_count]
          have hs := interp_pre_spec (handlers d.handler cmd.p1 cmd.p2 cmd.lc)
            (l :: ls)
            [Event.lookupPerformed,
             Event.handlerInvoked d.handler cmd.p1 cmd.p2 cmd.lc] (by simp) rfl
          have hle := respFlag_le_one
            (interp (handlers d.handler cmd.p1 cmd.p2 cmd.lc)
              (initExchSt (l :: ls)
                [Event.lookupPerformed,
                 Event.handlerInvoked d.handler cmd.p1 cmd.p2 cmd.lc])).response
          exact ⟨by omega, finishExchange_isSome cb true _⟩
        | none =>
          rw [exchange_miss descs handlers procs cb cmd l ls hp hf,
            finishExchange_count]
          exact ⟨rfl, finishExchange_isSome cb false _⟩
  · intro cb dores s h
    rw [finishExchange_response]
    exact finalizeResponse_of_none s h
  · intro d sw s r h
    exact ⟨sendResp_response_some d sw s r h, sendResp_rejected_of_some d sw s r h⟩

theorem C4_witness :
    (finishExchange false false (initExchSt initStack [])).response
        = some ([], SW_DEFAULT_FAILURE)
      ∧ (sendResp [] 5 { initExchSt initStack [] with response := some ([], 6) }).response
          = some ([], 6) :=
  ⟨C4_single_response.2.1 false false _ rfl,
   (C4_single_response.2.2 [] 5 _ ([], 6) rfl).1⟩

/-- C5: For every request whose (class, instruction) pair matches no
descriptor in the command table, the dispatcher invokes no handler, mutates
no flow state, and answers the exchange with the "no such command" status
word rather than crashing. -/
theorem C5_unknown_command (descs : List command_descriptor_t)
    (handlers : HandlerEnv) (procs : ProcEnv) (cb : Bool) (cmd : command_t)
    (l : MachineLevel) (ls : List MachineLevel)
    (hidle : l.next_processor = none)
    (hmiss : ∀ d ∈ descs, ¬(d.cla = cmd.cla ∧ d.ins = cmd.ins)) :
    (exchange descs handlers procs cb cmd (l :: ls)).stack = l :: ls
      ∧ (exchange descs handlers procs cb cmd (l :: ls)).response
          = some ([], SW_NO_SUCH_COMMAND)
      ∧ (exchange descs handlers procs cb cmd (l :: ls)).events.filter isHandlerEv = []
      ∧ (exchange descs handlers procs cb cmd (l :: ls)).events.filter isProcEv = [] := by
  rw [exchange_miss descs handlers procs cb cmd l ls hidle
    (findCommand_none descs cmd.cla cmd.ins hmiss)]
  obtain ⟨es, he, hre⟩ := finishExchange_events_append cb false
    { initExchSt (l :: ls)
        [Event.lookupPerformed, Event.responseSent [] SW_NO_SUCH_COMMAND] with
      response := some ([], SW_NO_SUCH_COMMAND) }
  refine ⟨?_, ?_, ?_, ?_⟩
  · rw [finishExchange_stack]
    rfl
  · rw [finishExchange_response, finalizeResponse_of_some _ ([], SW_NO_SUCH_COMMAND) rfl]
  · rw [he, filter_append_nil _ _ _ (fun e hee => respOrTerm_not_handler e (hre e hee))]
    rfl
  · rw [he, filter_append_nil _ _ _ (fun e hee => respOrTerm_not_proc e (hre e hee))]
    rfl

theorem C5_witness :
    (exchange [⟨7, 1, 1⟩] (fun _ _ _ _ => Act.skip) (fun _ => Act.skip) true
        ⟨2, 2, 0, 0, 0⟩ (⟨none⟩ :: [])).stack = ⟨none⟩ :: []
      ∧ (exchange [⟨7, 1, 1⟩] (fun _ _ _ _ => Act.skip) (fun _ => Act.skip) true
          ⟨2, 2, 0, 0, 0⟩ (⟨none⟩ :: [])).response = some ([], SW_NO_SUCH_COMMAND)
      ∧ (exchange [⟨7, 1, 1⟩] (fun _ _ _ _ => Act.skip) (fun _ => Act.skip) true
          ⟨2, 2, 0, 0, 0⟩ (⟨none⟩ :: [])).events.filter isHandlerEv = []
      ∧ (exchange [⟨7, 1, 1⟩] (fun _ _ _ _ => Act.skip) (fun _ => Act.skip) true
          ⟨2, 2, 0, 0, 0⟩ (⟨none⟩ :: [])).events.filter isProcEv = [] :=
  C5_unknown_command [⟨7, 1, 1⟩] (fun _ _ _ _ => Act.skip) (fun _ => Act.skip) true
    ⟨2, 2, 0, 0, 0⟩ ⟨none⟩ [] rfl (by decide)

/-- C7: Within any single exchange, no read from the request payload buffer
ever occurs after any byte of the response has been written, and the
dispatcher context itself enforces this ordering (further payload reads after
a response write has started fail or are rejected) rather than relying on
handler discipline: for every script `a` run after a response exists, no
successful read is added, and a `read` action is rejected. -/
theorem C7_payload_read_ordering :
    (∀ a s, s.response.isSome = true → (interp a s).readsOk = s.readsOk)
    ∧ (∀ n s, s.response.isSome = true →
        interp (Act.read n) s = { s with readsRejected := s.readsRejected + 1 }) :=
  ⟨interp_readsOk, interp_read_rejected⟩

theorem C7_witness :
    (interp (Act.read 3)
        { initExchSt initStack [] with response := some ([], 0x9000) }).readsOk = 0
      ∧ interp (Act.read 3)
          { initExchSt initStack [] with response := some ([], 0x9000) }
        = { { initExchSt initStack [] with response := some ([], 0x9000) } with
              readsRejected := 1 } :=
  ⟨C7_payload_read_ordering.1 (Act.read 3) _ rfl,
   C7_payload_read_ordering.2 3 _ rfl⟩

/-- C8: Whenever the dispatcher returns to the Idle state with no pending
continuation at any nesting level and a termination callback is registered,
that callback is invoked exactly once, and only after the exchange's terminal
response has already been sent; it is never invoked while any flow remains
active.  (The termination event occurs iff the callback is registered and the
final stack is Idle, and when it occurs it is the unique last event, strictly
after a response event.) -/
theorem C8_termination_callback (descs : List command_descriptor_t)
    (handlers : HandlerEnv) (procs : ProcEnv) (cb : Bool) (cmd : command_t)
    (stack : List MachineLevel) :
    (Event.termCb ∈ (exchange descs handlers procs cb cmd stack).events
        ↔ (cb = true ∧ isIdle (exchange descs handlers procs cb cmd stack).stack = true))
    ∧ (Event.termCb ∈ (exchange descs handlers procs cb cmd stack).events →
        ∃ pre d sw, (exchange descs handlers procs cb cmd stack).events
            = pre ++ [Event.termCb]
          ∧ Event.termCb ∉ pre ∧ Event.responseSent d sw ∈ pre) := by
  cases stack with
  | nil =>
    have hb : exchange descs handlers procs cb cmd []
        = finishExchange cb false (initExchSt [] []) := rfl
    rw [hb]
    exact finishExchange_termCb_spec cb false _ (by simp [initExchSt]) rfl
  | cons l ls =>
    cases hp : l.next_processor with
    | some p =>
      rw [exchange_proc descs handlers procs cb cmd l ls p hp]
      have hs := interp_pre_spec (procs p) (⟨none⟩ :: ls) [Event.procInvoked p]
        (by simp) rfl
      exact finishExchange_termCb_spec cb true _ hs.1 hs.2
    | none =>
      cases hf : findCommand descs cmd.cla cmd.ins with
      | some d =>
        rw [exchange_handler descs handlers procs cb cmd l ls d hp hf]
        have hs := interp_pre_spec (handlers d.handler cmd.p1 cmd.p2 cmd.lc)
          (l :: ls)
          [Event.lookupPerformed,
           Event.handlerInvoked d.handler cmd.p1 cmd.p2 cmd.lc] (by simp) rfl
        exact finishExchange_termCb_spec cb true _ hs.1 hs.2
      | none =>
        rw [exchange_miss descs handlers procs cb cmd l ls hp hf]
        exact finishExchange_termCb_spec cb false _ (by simp [initExchSt]) rfl

theorem C8_witness :
    Event.termCb ∈ (exchange [] (fun _ _ _ _ => Act.skip) (fun _ => Act.skip) true
        ⟨0, 0, 0, 0, 0⟩ initStack).events
      ∧ ∃ pre d sw,
          (exchange [] (fun _ _ _ _ => Act.skip) (fun _ => Act.skip) true
            ⟨0, 0, 0, 0, 0⟩ initStack).events = pre ++ [Event.termCb]
          ∧ Event.termCb ∉ pre ∧ Event.responseSent d sw ∈ pre := by
  have h := C8_termination_callback [] (fun _ _ _ _ => Act.skip) (fun _ => Act.skip)
    true ⟨0, 0, 0, 0, 0⟩ initStack
  have hmem := h.1.mpr ⟨rfl, by decide⟩
  exact ⟨hmem, h.2 hmem⟩

theorem sendSw_isSome (sw : Nat) (s : ExchSt) :
    (interp (Act.send_sw sw) s).response.isSome = true := by
  cases hr : s.response with
  | none => simp [interp, sendResp, hr]
  | some r => simp [interp, sendResp, hr]

/-! ### Claims C1, C2, C3, C6. -/

/-- C1: For every command table (an ordered array of command descriptors) and
every incoming request, the dispatcher invokes the handler of the first
descriptor whose (class, instruction) pair equals the request's
(class, instruction), passing it (parameter-1, parameter-2, payload-length,
dispatcher context), and invokes no other handler for that exchange.  (The
exchange's trace contains exactly one handler invocation: that of the first
matching descriptor, with P1, P2, Lc.) -/
theorem C1_dispatch_first_match (descs : List command_descriptor_t)
    (handlers : HandlerEnv) (procs : ProcEnv) (cb : Bool) (cmd : command_t)
    (l : MachineLevel) (ls : List MachineLevel) (i : Nat) (hi : i < descs.length)
    (hidle : l.next_processor = none)
    (hmatch : descs[i].cla = cmd.cla ∧ descs[i].ins = cmd.ins)
    (hfirst : ∀ j (hj : j < i),
      ¬(descs[j]).cla = cmd.cla
        ∨ ¬(descs[j]).ins = cmd.ins) :
    (exchange descs handlers procs cb cmd (l :: ls)).events.filter isHandlerEv
      = [Event.handlerInvoked descs[i].handler cmd.p1 cmd.p2 cmd.lc] := by
  have hf := findCommand_first descs cmd.cla cmd.ins i hi hmatch hfirst
  rw [exchange_handler descs handlers procs cb cmd l ls descs[i] hidle hf]
  obtain ⟨es, he, hre⟩ := interp_events_append
    (handlers descs[i].handler cmd.p1 cmd.p2 cmd.lc)
    (initExchSt (l :: ls)
      [Event.lookupPerformed, Event.handlerInvoked descs[i].handler cmd.p1 cmd.p2 cmd.lc])
  obtain ⟨fs, hfe, hrf⟩ := finishExchange_events_append cb true
    (interp (handlers descs[i].handler cmd.p1 cmd.p2 cmd.lc)
      (initExchSt (l :: ls)
        [Event.lookupPerformed,
         Event.handlerInvoked descs[i].handler cmd.p1 cmd.p2 cmd.lc]))
  rw [hfe, he,
    filter_append_nil _ _ _ (fun e hee => respOrTerm_not_handler e (hrf e hee)),
    filter_append_nil _ _ _ (fun e hee => respOrTerm_not_handler e (Or.inl (hre e hee)))]
  rfl

theorem C1_witness :
    (exchange [⟨7, 0xE1, 3⟩] (fun _ _ _ _ => Act.send_sw SW_OK) (fun _ => Act.skip)
        true ⟨0xE1, 3, 1, 2, 5⟩ (⟨none⟩ :: [])).events.filter isHandlerEv
      = [Event.handlerInvoked 7 1 2 5] :=
  C1_dispatch_first_match [⟨7, 0xE1, 3⟩] (fun _ _ _ _ => Act.send_sw SW_OK)
    (fun _ => Act.skip) true ⟨0xE1, 3, 1, 2, 5⟩ ⟨none⟩ [] 0 (by decide) rfl
    (by decide) (fun j hj => absurd hj (Nat.not_lt_zero j))

/-- Helper: a script ending in `next P; pause` leaves the current level's
continuation set to `P` and the exchange paused, whatever prefix work `b`
did, as long as `b` left the stack alone. -/
theorem interp_next_pause (b : Act) (P : Nat) (s : ExchSt)
    (hb : (interp b s).stack = s.stack) :
    (interp (Act.seq b (Act.seq (Act.next P) Act.pause)) s).stack
        = setCurrentNext s.stack (some P)
    ∧ (interp (Act.seq b (Act.seq (Act.next P) Act.pause)) s).paused = true := by
  constructor
  · simp [interp, hb]
  · simp [interp]

/-- Helper: resuming an exchange on a stack whose current level has pending
continuation `P` invokes `P` first, performs no registry lookup and invokes
no handler. -/
theorem exchange_resume (descs : List command_descriptor_t) (handlers : HandlerEnv)
    (procs : ProcEnv) (cb : Bool) (cmd : command_t) (P : Nat)
    (ls : List MachineLevel) :
    (exchange descs handlers procs cb cmd (⟨some P⟩ :: ls)).events.head?
        = some (Event.procInvoked P)
    ∧ Event.lookupPerformed
        ∉ (exchange descs handlers procs cb cmd (⟨some P⟩ :: ls)).events
    ∧ (exchange descs handlers procs cb cmd (⟨some P⟩ :: ls)).events.filter
        isHandlerEv = [] := by
  obtain ⟨es, he, hre⟩ := interp_events_append (procs P)
    (initExchSt (⟨none⟩ :: ls) [Event.procInvoked P])
  obtain ⟨fs, hfe, hrf⟩ := finishExchange_events_append cb true
    (interp (procs P) (initExchSt (⟨none⟩ :: ls) [Event.procInvoked P]))
  refine ⟨?_, ?_, ?_⟩
  · rw [exchange_proc descs handlers procs cb cmd ⟨some P⟩ ls P rfl, hfe, he]
    rfl
  · rw [exchange_proc descs handlers procs cb cmd ⟨some P⟩ ls P rfl, hfe, he]
    intro hmem
    rcases List.mem_append.mp hmem with hmem | hmem
    · rcases List.mem_append.mp hmem with hmem | hmem
      · simp [initExchSt] at hmem
      · exact respOrTerm_not_lookup _ (Or.inl (hre _ hmem)) rfl
    · exact respOrTerm_not_lookup _ (hrf _ hmem) rfl
  · rw [exchange_proc descs handlers procs cb cmd ⟨some P⟩ ls P rfl, hfe, he,
      filter_append_nil _ _ _ (fun e hee => respOrTerm_not_handler e (hrf e hee)),
      filter_append_nil _ _ _ (fun e hee => respOrTerm_not_handler e (Or.inl (hre e hee)))]
    rfl

/-- C2: For every exchange in which the invoked handler or processor calls
`next(P)` and then `pause()`, the immediately following exchange invokes `P`
(the continuation recorded in the current machine context), regardless of
that next request's class and instruction, and performs no command-registry
lookup for it.  The first conjunct covers a dispatched handler, the second a
resumed processor: in both cases the continuation `P` is recorded at the
current level, and the next exchange's first event invokes `P` while its
trace has no registry-lookup event and no handler invocation. -/
theorem C2_flow_resumption :
    (∀ (descs : List command_descriptor_t) (handlers : HandlerEnv)
        (procs : ProcEnv) (cb : Bool) (cmd1 cmd2 : command_t) (l : MachineLevel)
        (ls : List MachineLevel) (d : command_descriptor_t) (b : Act) (P : Nat),
      l.next_processor = none →
      findCommand descs cmd1.cla cmd1.ins = some d →
      handlers d.handler cmd1.p1 cmd1.p2 cmd1.lc
          = Act.seq b (Act.seq (Act.next P) Act.pause) →
      (∀ s, (interp b s).stack = s.stack) →
      (exchange descs handlers procs cb cmd1 (l :: ls)).stack = ⟨some P⟩ :: ls
        ∧ (exchange descs handlers procs cb cmd2
            (exchange descs handlers procs cb cmd1 (l :: ls)).stack).events.head?
              = some (Event.procInvoked P)
        ∧ Event.lookupPerformed
            ∉ (exchange descs handlers procs cb cmd2
                (exchange descs handlers procs cb cmd1 (l :: ls)).stack).events
        ∧ (exchange descs handlers procs cb cmd2
            (exchange descs handlers procs cb cmd1 (l :: ls)).stack).events.filter
              isHandlerEv = [])
    ∧ (∀ (descs : List command_descriptor_t) (handlers : HandlerEnv)
        (procs : ProcEnv) (cb : Bool) (cmd1 cmd2 : command_t) (l : MachineLevel)
        (ls : List MachineLevel) (q : Nat) (b : Act) (P : Nat),
      l.next_processor = some q →
      procs q = Act.seq b (Act.seq (Act.next P) Act.pause) →
      (∀ s, (interp b s).stack = s.stack) →
      (exchange descs handlers procs cb cmd1 (l :: ls)).stack = ⟨some P⟩ :: ls
        ∧ (exchange descs handlers procs cb cmd2
            (exchange descs handlers procs cb cmd1 (l :: ls)).stack).events.head?
              = some (Event.procInvoked P)
        ∧ Event.lookupPerformed
            ∉ (exchange descs handlers procs cb cmd2
                (exchange descs handlers procs cb cmd1 (l :: ls)).stack).events
        ∧ (exchange descs handlers procs cb cmd2
            (exchange descs handlers procs cb cmd1 (l :: ls)).stack).events.filter
              isHandlerEv = []) := by
  constructor
  · intro descs handlers procs cb cmd1 cmd2 l ls d b P hidle hf hscript hb
    have hstack1 : (exchange descs handlers procs cb cmd1 (l :: ls)).stack
        = ⟨some P⟩ :: ls := by
      rw [exchange_handler descs handlers procs cb cmd1 l ls d hidle hf, hscript,
        finishExchange_stack, if_pos rfl]
      obtain ⟨hst, hpa⟩ := interp_next_pause b P
        (initExchSt (l :: ls)
          [Event.lookupPerformed,
           Event.handlerInvoked d.handler cmd1.p1 cmd1.p2 cmd1.lc]) (hb _)
      rw [hst, hpa]
      simp [resolveStack, initExchSt, setCurrentNext]
    obtain ⟨h1, h2, h3⟩ := exchange_resume descs handlers procs cb cmd2 P ls
    exact ⟨hstack1, by rw [hstack1]; exact h1, by rw [hstack1]; exact h2,
      by rw [hstack1]; exact h3⟩
  · intro descs handlers procs cb cmd1 cmd2 l ls q b P hq hscript hb
    have hstack1 : (exchange descs handlers procs cb cmd1 (l :: ls)).stack
        = ⟨some P⟩ :: ls := by
      rw [exchange_proc descs handlers procs cb cmd1 l ls q hq, hscript,
        finishExchange_stack, if_pos rfl]
      obtain ⟨hst, hpa⟩ := interp_next_pause b P
        (initExchSt (⟨none⟩ :: ls) [Event.procInvoked q]) (hb _)
      rw [hst, hpa]
      simp [resolveStack, initExchSt, setCurrentNext]
    obtain ⟨h1, h2, h3⟩ := exchange_resume descs handlers procs cb cmd2 P ls
    exact ⟨hstack1, by rw [hstack1]; exact h1, by rw [hstack1]; exact h2,
      by rw [hstack1]; exact h3⟩

theorem C2_witness :
    ((exchange [⟨7, 1, 2⟩] wHandlersNP wProcsOK false ⟨1, 2, 0, 0, 0⟩
          (⟨none⟩ :: [])).stack = ⟨some 5⟩ :: []
      ∧ (exchange [⟨7, 1, 2⟩] wHandlersNP wProcsOK false ⟨9, 9, 0, 0, 0⟩
          (exchange [⟨7, 1, 2⟩] wHandlersNP wProcsOK false ⟨1, 2, 0, 0, 0⟩
            (⟨none⟩ :: [])).stack).events.head? = some (Event.procInvoked 5)
      ∧ Event.lookupPerformed
          ∉ (exchange [⟨7, 1, 2⟩] wHandlersNP wProcsOK false ⟨9, 9, 0, 0, 0⟩
              (exchange [⟨7, 1, 2⟩] wHandlersNP wProcsOK false ⟨1, 2, 0, 0, 0⟩
                (⟨none⟩ :: [])).stack).events
      ∧ (exchange [⟨7, 1, 2⟩] wHandlersNP wProcsOK false ⟨9, 9, 0, 0, 0⟩
          (exchange [⟨7, 1, 2⟩] wHandlersNP wProcsOK false ⟨1, 2, 0, 0, 0⟩
            (⟨none⟩ :: [])).stack).events.filter isHandlerEv = [])
    ∧ ((exchange [] wHandlersSkip wProcsNP false ⟨0, 0, 0, 0, 0⟩
          (⟨some 9⟩ :: [])).stack = ⟨some 5⟩ :: []
      ∧ (exchange [] wHandlersSkip wProcsNP false ⟨1, 1, 0, 0, 0⟩
          (exchange [] wHandlersSkip wProcsNP false ⟨0, 0, 0, 0, 0⟩
            (⟨some 9⟩ :: [])).stack).events.head? = some (Event.procInvoked 5)
      ∧ Event.lookupPerformed
          ∉ (exchange [] wHandlersSkip wProcsNP false ⟨1, 1, 0, 0, 0⟩
              (exchange [] wHandlersSkip wProcsNP false ⟨0, 0, 0, 0, 0⟩
                (⟨some 9⟩ :: [])).stack).events
      ∧ (exchange [] wHandlersSkip wProcsNP false ⟨1, 1, 0, 0, 0⟩
          (exchange [] wHandlersSkip wProcsNP false ⟨0, 0, 0, 0, 0⟩
            (⟨some 9⟩ :: [])).stack).events.filter isHandlerEv = []) :=
  ⟨C2_flow_resumption.1 [⟨7, 1, 2⟩] wHandlersNP wProcsOK false ⟨1, 2, 0, 0, 0⟩
      ⟨9, 9, 0, 0, 0⟩ ⟨none⟩ [] ⟨7, 1, 2⟩ Act.skip 5 rfl rfl rfl (fun _ => rfl),
   C2_flow_resumption.2 [] wHandlersSkip wProcsNP false ⟨0, 0, 0, 0, 0⟩
      ⟨1, 1, 0, 0, 0⟩ ⟨some 9⟩ [] 9 Act.skip 5 rfl rfl (fun _ => rfl)⟩

/-- C3: For every call `start_flow(F, sub, R)` made from a current
machine-context level `L` — whether in a freshly dispatched handler or in a
resumed processor — sub's parent becomes `L`, `R` is recorded as `L`'s
pending continuation, and `F` executes immediately as the sub-flow's first
step; and once the sub-flow completes (sends a terminal response without
registering a further continuation), whether within the starting exchange or
in a later exchange of a multi-exchange sub-flow, the following exchange
invokes `R` at level `L` and the nesting depth equals its value before the
`start_flow` call.  Part (1) is the action's semantics at any call site;
parts (2) and (3) are the handler-site and processor-site starting
exchanges; part (4) is completion in any later exchange; part (5) is
completion within the starting exchange. -/
theorem C3_sub_flow_composition :
    (∀ (F : Act) (R : Nat) (s : ExchSt) (L : MachineLevel)
        (rest : List MachineLevel),
      s.stack = L :: rest → (L :: rest).length < MAX_NESTING →
      interp (Act.start_flow F R) s
        = interp F { s with stack := ⟨none⟩ :: ⟨some R⟩ :: rest })
    ∧ (∀ (descs : List command_descriptor_t) (handlers : HandlerEnv)
        (procs : ProcEnv) (cb : Bool) (cmd1 : command_t) (L : MachineLevel)
        (rest : List MachineLevel) (d : command_descriptor_t) (F : Act) (R : Nat),
      L.next_processor = none →
      findCommand descs cmd1.cla cmd1.ins = some d →
      handlers d.handler cmd1.p1 cmd1.p2 cmd1.lc = Act.start_flow F R →
      (L :: rest).length < MAX_NESTING →
      exchange descs handlers procs cb cmd1 (L :: rest)
        = finishExchange cb true (interp F
            { initExchSt (L :: rest)
                [Event.lookupPerformed,
                 Event.handlerInvoked d.handler cmd1.p1 cmd1.p2 cmd1.lc] with
              stack := ⟨none⟩ :: ⟨some R⟩ :: rest }))
    ∧ (∀ (descs : List command_descriptor_t) (handlers : HandlerEnv)
        (procs : ProcEnv) (cb : Bool) (cmd1 : command_t) (l : MachineLevel)
        (ls : List MachineLevel) (q : Nat) (F : Act) (R : Nat),
      l.next_processor = some q →
      procs q = Act.start_flow F R →
      (l :: ls).length < MAX_NESTING →
      exchange descs handlers procs cb cmd1 (l :: ls)
        = finishExchange cb true (interp F
            { initExchSt (⟨none⟩ :: ls) [Event.procInvoked q] with
              stack := ⟨none⟩ :: ⟨some R⟩ :: ls }))
    ∧ (∀ (descs : List command_descriptor_t) (handlers : HandlerEnv)
        (procs : ProcEnv) (cb : Bool) (cmd1 cmd2 : command_t)
        (sub : MachineLevel) (rest : List MachineLevel) (q R : Nat),
      sub.next_processor = some q →
      (interp (procs q)
        (initExchSt (⟨none⟩ :: ⟨some R⟩ :: rest) [Event.procInvoked q])).stack
          = ⟨none⟩ :: ⟨some R⟩ :: rest →
      (interp (procs q)
        (initExchSt (⟨none⟩ :: ⟨some R⟩ :: rest) [Event.procInvoked q])).paused
          = false →
      (interp (procs q)
        (initExchSt (⟨none⟩ :: ⟨some R⟩ :: rest)
          [Event.procInvoked q])).response.isSome = true →
      (exchange descs handlers procs cb cmd1 (sub :: ⟨some R⟩ :: rest)).stack
          = ⟨some R⟩ :: rest
        ∧ (exchange descs handlers procs cb cmd1
            (sub :: ⟨some R⟩ :: rest)).stack.length + 1
              = (sub :: ⟨some R⟩ :: rest).length
        ∧ (exchange descs handlers procs cb cmd2
            (exchange descs handlers procs cb cmd1
              (sub :: ⟨some R⟩ :: rest)).stack).events.head?
                = some (Event.procInvoked R)
        ∧ Event.lookupPerformed
            ∉ (exchange descs handlers procs cb cmd2
                (exchange descs handlers procs cb cmd1
                  (sub :: ⟨some R⟩ :: rest)).stack).events)
    ∧ (∀ (descs : List command_descriptor_t) (handlers : HandlerEnv)
        (procs : ProcEnv) (cb : Bool) (cmd1 cmd2 : command_t) (L : MachineLevel)
        (rest : List MachineLevel) (d : command_descriptor_t) (F : Act) (R : Nat),
      L.next_processor = none →
      findCommand descs cmd1.cla cmd1.ins = some d →
      handlers d.handler cmd1.p1 cmd1.p2 cmd1.lc = Act.start_flow F R →
      (L :: rest).length < MAX_NESTING →
      (∀ s, (interp F s).stack = s.stack) →
      (∀ s, (interp F s).paused = s.paused) →
      (∀ s, (interp F s).response.isSome = true) →
      (exchange descs handlers procs cb cmd1 (L :: rest)).stack = ⟨some R⟩ :: rest
        ∧ (exchange descs handlers procs cb cmd1 (L :: rest)).stack.length
            = (L :: rest).length
        ∧ (exchange descs handlers procs cb cmd2
            (exchange descs handlers procs cb cmd1 (L :: rest)).stack).events.head?
              = some (Event.procInvoked R)
        ∧ Event.lookupPerformed
            ∉ (exchange descs handlers procs cb cmd2
                (exchange descs handlers procs cb cmd1 (L :: rest)).stack).events) := by
  have hpart1 : ∀ (F : Act) (R : Nat) (s : ExchSt) (L : MachineLevel)
      (rest : List MachineLevel),
      s.stack = L :: rest → (L :: rest).length < MAX_NESTING →
      interp (Act.start_flow F R) s
        = interp F { s with stack := ⟨none⟩ :: ⟨some R⟩ :: rest } := by
    intro F R s L rest hs hdepth
    simp only [interp]
    rw [hs, if_neg (by exact not_le.mpr hdepth)]
    rfl
  have hpart2 : ∀ (descs : List command_descriptor_t) (handlers : HandlerEnv)
      (procs : ProcEnv) (cb : Bool) (cmd1 : command_t) (L : MachineLevel)
      (rest : List MachineLevel) (d : command_descriptor_t) (F : Act) (R : Nat),
      L.next_processor = none →
      findCommand descs cmd1.cla cmd1.ins = some d →
      handlers d.handler cmd1.p1 cmd1.p2 cmd1.lc = Act.start_flow F R →
      (L :: rest).length < MAX_NESTING →
      exchange descs handlers procs cb cmd1 (L :: rest)
        = finishExchange cb true (interp F
            { initExchSt (L :: rest)
                [Event.lookupPerformed,
                 Event.handlerInvoked d.handler cmd1.p1 cmd1.p2 cmd1.lc] with
              stack := ⟨none⟩ :: ⟨some R⟩ :: rest }) := by
    intro descs handlers procs cb cmd1 L rest d F R hidle hf hscript hdepth
    rw [exchange_handler descs handlers procs cb cmd1 L rest d hidle hf, hscript]
    simp only [interp]
    rw [if_neg (by exact not_le.mpr hdepth)]
    rfl
  refine ⟨hpart1, hpart2, ?_, ?_, ?_⟩
  · intro descs handlers procs cb cmd1 l ls q F R hq hscript hdepth
    rw [exchange_proc descs handlers procs cb cmd1 l ls q hq, hscript]
    simp only [interp]
    rw [if_neg (by exact not_le.mpr hdepth)]
    rfl
  · intro descs handlers procs cb cmd1 cmd2 sub rest q R hq hstk hpau hsend
    have hstack1 : (exchange descs handlers procs cb cmd1
        (sub :: ⟨some R⟩ :: rest)).stack = ⟨some R⟩ :: rest := by
      rw [exchange_proc descs handlers procs cb cmd1 sub (⟨some R⟩ :: rest) q hq,
        finishExchange_stack, if_pos rfl, hstk, hpau]
      simp [resolveStack]
    obtain ⟨h1, h2, _⟩ := exchange_resume descs handlers procs cb cmd2 R rest
    exact ⟨hstack1, by rw [hstack1]; rfl, by rw [hstack1]; exact h1,
      by rw [hstack1]; exact h2⟩
  · intro descs handlers procs cb cmd1 cmd2 L rest d F R hidle hf hscript hdepth
      hFstack hFpause hFsends
    have heq := hpart2 descs handlers procs cb cmd1 L rest d F R hidle hf
      hscript hdepth
    have hstack1 : (exchange descs handlers procs cb cmd1 (L :: rest)).stack
        = ⟨some R⟩ :: rest := by
      rw [heq, finishExchange_stack, if_pos rfl, hFstack, hFpause]
      simp [resolveStack, initExchSt]
    obtain ⟨h1, h2, _⟩ := exchange_resume descs handlers procs cb cmd2 R rest
    exact ⟨hstack1, by rw [hstack1]; rfl, by rw [hstack1]; exact h1,
      by rw [hstack1]; exact h2⟩

theorem C3_witness :
    (interp (Act.start_flow Act.skip 4) (initExchSt (⟨none⟩ :: []) [])
        = interp Act.skip
            { initExchSt (⟨none⟩ :: []) [] with
              stack := ⟨none⟩ :: ⟨some 4⟩ :: [] })
    ∧ ((exchange [] wHandlersSkip wProcsOK false ⟨0, 0, 0, 0, 0⟩
          (⟨some 9⟩ :: ⟨some 6⟩ :: [])).stack = ⟨some 6⟩ :: []
      ∧ (exchange [] wHandlersSkip wProcsOK false ⟨0, 0, 0, 0, 0⟩
          (⟨some 9⟩ :: ⟨some 6⟩ :: [])).stack.length + 1
            = (⟨some 9⟩ :: ⟨some 6⟩ :: ([] : List MachineLevel)).length
      ∧ (exchange [] wHandlersSkip wProcsOK false ⟨1, 1, 0, 0, 0⟩
          (exchange [] wHandlersSkip wProcsOK false ⟨0, 0, 0, 0, 0⟩
            (⟨some 9⟩ :: ⟨some 6⟩ :: [])).stack).events.head?
              = some (Event.procInvoked 6)
      ∧ Event.lookupPerformed
          ∉ (exchange [] wHandlersSkip wProcsOK false ⟨1, 1, 0, 0, 0⟩
              (exchange [] wHandlersSkip wProcsOK false ⟨0, 0, 0, 0, 0⟩
                (⟨some 9⟩ :: ⟨some 6⟩ :: [])).stack).events) :=
  ⟨C3_sub_flow_composition.1 Act.skip 4 (initExchSt (⟨none⟩ :: []) []) ⟨none⟩ []
      rfl (by decide),
   C3_sub_flow_composition.2.2.2.1 [] wHandlersSkip wProcsOK false
      ⟨0, 0, 0, 0, 0⟩ ⟨1, 1, 0, 0, 0⟩ ⟨some 9⟩ [] 9 6 rfl rfl rfl rfl⟩

/-- C6: For every reachable state of the machine-context stack, following
parent references from any active context reaches the root context in
finitely many steps (the stack is a finite nonempty list ending at the root);
the length of that chain equals the flow nesting depth and never exceeds a
fixed compile-time maximum, and an attempt to nest a flow beyond that maximum
fails deterministically without corrupting other context state. -/
theorem C6_depth_bound :
    (∀ descs handlers procs cb cmds,
        runExchanges descs handlers procs cb cmds initStack ≠ []
          ∧ (runExchanges descs handlers procs cb cmds initStack).length
              ≤ MAX_NESTING)
    ∧ (∀ F R s, MAX_NESTING ≤ s.stack.length →
        (interp (Act.start_flow F R) s).stack = s.stack
          ∧ (interp (Act.start_flow F R) s).paused = s.paused
          ∧ (interp (Act.start_flow F R) s).flowError = true) := by
  constructor
  · intro descs handlers procs cb cmds
    exact runExchanges_inv descs handlers procs cb cmds initStack
      (by decide) (by decide)
  · intro F R s hle
    simp only [interp]
    rw [if_pos hle]
    exact ⟨sendResp_stack _ _ _, sendResp_paused _ _ _,
      (sendResp_flowError _ _ _).trans rfl⟩

theorem C6_witness :
    (runExchanges [] (fun _ _ _ _ => Act.skip) (fun _ => Act.skip) false []
        initStack ≠ []
      ∧ (runExchanges [] (fun _ _ _ _ => Act.skip) (fun _ => Act.skip) false []
          initStack).length ≤ MAX_NESTING)
      ∧ ((interp (Act.start_flow Act.skip 9)
            (initExchSt [⟨none⟩, ⟨none⟩, ⟨none⟩, ⟨none⟩] [])).stack
            = [⟨none⟩, ⟨none⟩, ⟨none⟩, ⟨none⟩]
          ∧ (interp (Act.start_flow Act.skip 9)
              (initExchSt [⟨none⟩, ⟨none⟩, ⟨none⟩, ⟨none⟩] [])).paused = false
          ∧ (interp (Act.start_flow Act.skip 9)
              (initExchSt [⟨none⟩, ⟨none⟩, ⟨none⟩, ⟨none⟩] [])).flowError = true) :=
  ⟨C6_depth_bound.1 [] (fun _ _ _ _ => Act.skip) (fun _ => Act.skip) false [],
   C6_depth_bound.2 Act.skip 9 (initExchSt [⟨none⟩, ⟨none⟩, ⟨none⟩, ⟨none⟩] [])
     (by decide)⟩

/-! ### Lemmas about the diagnostic walk. -/

theorem printLoop_of_reaches (h : Heap) (a n : Nat) (hr : ReachesRoot h a n) :
    ∀ fuel, n < fuel → printLoop h a fuel = some (List.replicate n "----") := by
  induction hr with
  | root a ctx ha hp =>
    intro fuel hf
    cases fuel with
    | zero => omega
    | succ m => simp [printLoop, ha, hp]
  | step a p n ctx ha hp _ ih =>
    intro fuel hf
    cases fuel with
    | zero => omega
    | succ m =>
      simp [printLoop, ha, hp, ih m (by omega), List.replicate_succ]

theorem printLoop_reaches (h : Heap) :
    ∀ fuel a l, printLoop h a fuel = some l → ReachesRoot h a l.length := by
  intro fuel
  induction fuel with
  | zero =>
    intro a l hl
    simp [printLoop] at hl
  | succ m ih =>
    intro a l hl
    cases ha : h a with
    | none => simp [printLoop, ha] at hl
    | some ctx =>
      cases hp : ctx.parent_context with
      | none =>
        simp [printLoop, ha, hp] at hl
        subst hl
        exact ReachesRoot.root a ctx ha hp
      | some p =>
        simp only [printLoop, ha, hp, Option.map_eq_some'] at hl
        obtain ⟨l', hl', rfl⟩ := hl
        have hr := ih p l' hl'
        simpa using ReachesRoot.step a p l'.length ctx ha hp hr

/-- C9: For every dispatcher context and every machine-context chain, the
diagnostic routine `print_dispatcher_info` leaves the dispatcher context,
every machine-context record, and all flow state unchanged: it renders the
nesting depth (one indentation unit per parent link walked to the root) and a
source location, with no effect on control flow or state.  (The heap and the
dispatcher context are returned exactly as given; the output is one `----`
per parent link, then the location line.) -/
theorem C9_print_dispatcher_info_frame (h : Heap) (dc : dispatcher_context_t)
    (a n : Nat) (file : String) (line : Nat) (func : String) (fuel : Nat)
    (hdc : dc.machine_context_ptr = some a) (hchain : ReachesRoot h a n)
    (hfuel : n < fuel) :
    print_dispatcher_info h dc file line func fuel
      = some (h, dc, List.replicate n "----" ++ [renderLocation file line func]) := by
  simp [print_dispatcher_info, hdc, printLoop_of_reaches h a n hchain fuel hfuel]

/-- C10: `print_dispatcher_info` terminates exactly under the precondition
that `dc->machine_context_ptr` is non-null and the `parent_context` chain
from it is acyclic and null-terminated (it reaches the root); it then takes
exactly one iteration per ancestor link, while a null current context pointer
is an unchecked null dereference and a chain that never reaches the root
(e.g. a cycle) makes the walk fail for every amount of fuel. -/
theorem C10_print_dispatcher_info_termination (h : Heap)
    (dc : dispatcher_context_t) (file : String) (line : Nat) (func : String) :
    ((∃ fuel out, print_dispatcher_info h dc file line func fuel = some out)
        ↔ (∃ a n, dc.machine_context_ptr = some a ∧ ReachesRoot h a n))
    ∧ (∀ a n fuel, ReachesRoot h a n → n < fuel →
        printLoop h a fuel = some (List.replicate n "----"))
    ∧ (dc.machine_context_ptr = none →
        ∀ fuel, print_dispatcher_info h dc file line func fuel = none) := by
  refine ⟨⟨?_, ?_⟩, ?_, ?_⟩
  · rintro ⟨fuel, out, hout⟩
    cases hdc : dc.machine_context_ptr with
    | none => simp [print_dispatcher_info, hdc] at hout
    | some a =>
      cases hmap : printLoop h a fuel with
      | none => simp [print_dispatcher_info, hdc, hmap] at hout
      | some l => exact ⟨a, l.length, rfl, printLoop_reaches h fuel a l hmap⟩
  · rintro ⟨a, n, hdc, hchain⟩
    exact ⟨n + 1,
      (h, dc, List.replicate n "----" ++ [renderLocation file line func]),
      by simp [print_dispatcher_info, hdc,
        printLoop_of_reaches h a n hchain (n + 1) (Nat.lt_succ_self n)]⟩
  · intro a n fuel hr hf
    exact printLoop_of_reaches h a n hr fuel hf
  · intro hdc fuel
    simp [print_dispatcher_info, hdc]

theorem wHeap_chain : ReachesRoot wHeap 1 1 :=
  ReachesRoot.step 1 0 0 ⟨some 0, none⟩ rfl rfl
    (ReachesRoot.root 0 ⟨none, none⟩ rfl rfl)

theorem C9_witness :
    print_dispatcher_info wHeap ⟨some 1⟩ "dispatcher.h" 100 "handler" 2
      = some (wHeap, ⟨some 1⟩,
          List.replicate 1 "----" ++ [renderLocation "dispatcher.h" 100 "handler"]) :=
  C9_print_dispatcher_info_frame wHeap ⟨some 1⟩ 1 1 "dispatcher.h" 100 "handler" 2
    rfl wHeap_chain (by decide)

theorem C10_witness : printLoop wHeap 1 2 = some (List.replicate 1 "----") :=
  (C10_print_dispatcher_info_termination wHeap ⟨some 1⟩ "dispatcher.h" 100
    "handler").2.1 1 1 2 wHeap_chain (by decide)

end Dispatch
